import Mathlib

/-!
# Verification of `generate_project_structure.py`

A shallow embedding of the directory-snapshot tool
`src/generate_project_structure.py` and proofs about its traversal,
content-inclusion policy, ignore matching and output assembly.

Modelling decisions:

* The filesystem snapshot observed by one run is a rose tree (`FSEntry`):
  a directory with its listed children, a regular file with the results the
  run would observe (`os.path.getsize` and the `open`/`read` of its text,
  each of which may raise, modelled with `Except`), or an entry that is
  neither a directory nor a regular file (broken symlink, socket, FIFO —
  `os.path.isdir` and `os.path.isfile` both return `False`).
* The script is platform-generic Python; we embed its behaviour on Windows
  (`ntpath` semantics), the platform the code's `os.sep` substitution
  (line 95) and `os.path.normcase` case folding are written for:
  `os.sep = '\\'` and `os.path.normcase(s) = s.replace('/', '\\').lower()`.
  `.lower()` is modelled with `Char.toLower` (ASCII case folding).
* `list.sort()` is a stable sort on strings (code-point lexicographic);
  we model it with `List.insertionSort` on the entry names.
* Python appends to two shared mutable lists during the recursion; the net
  effect is the concatenation, in loop order, of what each iteration
  appends, which is how `collectEntries` is written.
-/

namespace ProjectStructure

/-! ## Module-level constants (lines 3–15 of the source) -/

def SCRIPT_FILE : String := "generate_project_structure.py"

def OUTPUT_FILE : String := "project_structure.txt"

def PROJECT_IGNORE_FILE : String := ".projectignore"

def PROJECT_HEADER_FILE : String := ".projectheader"

def PROJECT_FOOTER_FILE : String := ".projectfooter"

def INDENT_CHAR : Char := '\t'

def ARROW : String := "->"

def IGNORE_HIDDEN_FILES : Bool := false

def EMPTY_FILE_PLACEHOLDER : String := "[not yet implemented]"

def OMITTED_TEXT : String := "[omitted for brevity]"

def MAX_FILE_SIZE : Nat := 1000000

/-- The value of `os.sep` on the modelled platform. -/
def osSep : String := "\\"

/-- Python `os.path.normcase`: `s.replace('/', '\\').lower()` (ntpath). -/
def normcase (s : String) : String :=
  String.mk ((s.data.map (fun c => if c = '/' then '\\' else c)).map Char.toLower)

/-- Function `any_match` (lines 120–125): does `path` equal some pattern after
`os.path.normcase` normalisation of both? -/
def any_match (path : String) (patterns : List String) : Bool :=
  patterns.any (fun pattern => normcase pattern == normcase path)

/-- Python `str.splitlines()` restricted to the `\n`, `\r\n` and `\r` line
terminators: split into lines, terminators dropped, no trailing empty
line for a trailing terminator, `[]` for the empty string. -/
def splitlinesAux : List Char → List Char → List String
  | [], [] => []
  | [], acc => [String.mk acc.reverse]
  | '\r' :: '\n' :: rest, acc => String.mk acc.reverse :: splitlinesAux rest []
  | '\n' :: rest, acc => String.mk acc.reverse :: splitlinesAux rest []
  | '\r' :: rest, acc => String.mk acc.reverse :: splitlinesAux rest []
  | c :: rest, acc => splitlinesAux rest (c :: acc)

def splitlines (s : String) : List String :=
  splitlinesAux s.data []

/-! ## The filesystem snapshot -/

/-- What one run observes of a regular file: its name, the result of
`os.path.getsize` and the result of opening and reading it as UTF-8 text
(`Except.error e` models a raised exception with message `e`). -/
structure FileData where
  name : String
  sizeResult : Except String Nat
  readResult : Except String String

/-- One directory entry: a subdirectory with its children, a regular file,
or an entry for which both `os.path.isdir` and `os.path.isfile` are
`False` (broken symlink, socket, FIFO, …). -/
inductive FSEntry where
  | dir (name : String) (children : List FSEntry)
  | file (data : FileData)
  | other (name : String)

def FSEntry.name : FSEntry → String
  | .dir n _ => n
  | .file fd => fd.name
  | .other n => n

/-- `os.path.isdir` on the entry. -/
def FSEntry.isDir : FSEntry → Bool
  | .dir _ _ => true
  | _ => false

/-- `os.path.isfile` on the entry. -/
def FSEntry.isFile : FSEntry → Bool
  | .file _ => true
  | _ => false

/-- The reserved names excluded from the files list (line 69):
`{SCRIPT_FILE, OUTPUT_FILE, PROJECT_IGNORE_FILE, PROJECT_HEADER_FILE,
PROJECT_FOOTER_FILE}`. -/
def reservedNames : List String :=
  [SCRIPT_FILE, OUTPUT_FILE, PROJECT_IGNORE_FILE, PROJECT_HEADER_FILE, PROJECT_FOOTER_FILE]

/-- Value of `os.path.relpath(os.path.join(current_dir, name), root_dir)` where
`relDir` is the current directory's own path relative to the root
(`""` for the root itself). -/
def joinRel (relDir name : String) : String :=
  if relDir = "" then name else relDir ++ osSep ++ name

/-- One structure line: `INDENT_CHAR * indent_level + ARROW + ' ' + entry`
(lines 80–83, 90). -/
def structLine (indentLevel : Nat) (entry : String) : String :=
  String.mk (List.replicate indentLevel INDENT_CHAR) ++ ARROW ++ " " ++ entry

/-! ## Content-inclusion policy (`include_file_contents`, lines 99–118) -/

def include_file_contents (f : FileData) (is_ignored : Bool) : List String :=
  match f.sizeResult with
  | .error e => ["[Error reading file: " ++ e ++ "]"]
  | .ok file_size =>
    if file_size = 0 then
      [EMPTY_FILE_PLACEHOLDER]
    else if is_ignored then
      [OMITTED_TEXT]
    else if file_size > MAX_FILE_SIZE then
      ["[File content truncated due to size limitations]"]
    else
      match f.readResult with
      | .error e => ["[Error reading file: " ++ e ++ "]"]
      | .ok content =>
          (if !is_ignored then ["```"] else [])
            ++ splitlines content
            ++ (if !is_ignored then ["```"] else [])

/-- Function `collect_file_content` (lines 93–97): label line, body, separator. -/
def collect_file_content (f : FileData) (relFilePath : String) (is_ignored : Bool) :
    List String :=
  (relFilePath.replace "/" osSep ++ ":\n")
    :: include_file_contents f is_ignored
    ++ ["\n---\n"]

/-! ## The traversal (`collect_structure_and_contents`, lines 58–91) -/

/-- The hidden-entry filter of line 61 (a no-op since
`IGNORE_HIDDEN_FILES = False`). -/
def visibleEntries (entries : List FSEntry) : List FSEntry :=
  entries.filter (fun e => !(IGNORE_HIDDEN_FILES && e.name.startsWith "."))

/-- Alphabetical order on entry names (what `dirs.sort()` / `files.sort()`
compare). -/
@[reducible] def nameLE (a b : FSEntry) : Prop :=
  a.name ≤ b.name

instance : DecidableRel nameLE :=
  fun a b => inferInstanceAs (Decidable (a.name ≤ b.name))

instance : IsTotal FSEntry nameLE :=
  ⟨fun a b => le_total a.name b.name⟩

instance : IsTrans FSEntry nameLE :=
  ⟨fun _ _ _ h1 h2 => le_trans h1 h2⟩

/-- The sorted subdirectory list of one level (lines 65–68, 72). -/
def sortedDirs (entries : List FSEntry) : List FSEntry :=
  List.insertionSort nameLE ((visibleEntries entries).filter FSEntry.isDir)

/-- The sorted files list of one level, reserved names excluded
(lines 65–70, 73). -/
def sortedFiles (entries : List FSEntry) : List FSEntry :=
  List.insertionSort nameLE
    ((visibleEntries entries).filter
      (fun e => e.isFile && !(reservedNames.contains e.name)))

theorem sizeOf_lt_of_mem_sortedDirs {e : FSEntry} {entries : List FSEntry}
    (h : e ∈ sortedDirs entries) :
    sizeOf e < sizeOf entries := by
  rw [sortedDirs, List.mem_insertionSort] at h
  have h1 : e ∈ visibleEntries entries := (List.mem_filter.mp h).1
  rw [visibleEntries] at h1
  exact List.sizeOf_lt_of_mem (List.mem_filter.mp h1).1

/-- The body of the files loop (lines 87–91): one structure line for the
file, and its content block. -/
def emitEntryFile (f : FSEntry) (indentLevel : Nat) (patterns : List String)
    (relDir : String) : List String × List String :=
  match f with
  | FSEntry.file fd =>
    let rel := joinRel relDir fd.name
    ([structLine indentLevel fd.name],
     collect_file_content fd rel (any_match rel patterns))
  | _ => ([], [])

mutual

/-- Function `collect_structure_and_contents` (lines 58–91): the pair
(structure lines, content lines) appended for `entries`, the listing of a
directory at depth `indentLevel` whose path relative to the traversal root
is `relDir`. Python appends to two shared lists; the net effect is the
concatenation, in loop order, of what each loop iteration appends. -/
def collectEntries (entries : List FSEntry) (indentLevel : Nat) (patterns : List String)
    (relDir : String) : List String × List String :=
  let dirOuts := (sortedDirs entries).attach.map
    (fun d => emitEntryDir d.val indentLevel patterns relDir)
  let fileOuts := (sortedFiles entries).map
    (fun f => emitEntryFile f indentLevel patterns relDir)
  (dirOuts.flatMap Prod.fst ++ fileOuts.flatMap Prod.fst,
   dirOuts.flatMap Prod.snd ++ fileOuts.flatMap Prod.snd)
termination_by sizeOf entries
decreasing_by
  exact sizeOf_lt_of_mem_sortedDirs d.property

/-- The body of the directories loop (lines 76–84): an ignored directory
gets its entry line plus one omission marker and is not recursed into;
otherwise its entry line is followed by the recursive output. -/
def emitEntryDir (d : FSEntry) (indentLevel : Nat) (patterns : List String)
    (relDir : String) : List String × List String :=
  match d with
  | FSEntry.dir name children =>
    let rel := joinRel relDir name
    if any_match rel patterns then
      ([structLine indentLevel name, structLine (indentLevel + 1) OMITTED_TEXT],
       ([] : List String))
    else
      let sub := collectEntries children (indentLevel + 1) patterns rel
      (structLine indentLevel name :: sub.1, sub.2)
  | _ => ([], [])
termination_by sizeOf d
decreasing_by
  simp only [FSEntry.dir.sizeOf_spec]
  omega

end

/-- The traversal decomposes as the concatenation of the per-directory
emissions (in sorted order) followed by the per-file emissions (in sorted
order), separately for structure lines and content lines. -/
theorem collectEntries_decomp (entries : List FSEntry) (indentLevel : Nat)
    (patterns : List String) (relDir : String) :
    collectEntries entries indentLevel patterns relDir =
      ((sortedDirs entries).flatMap (fun d => (emitEntryDir d indentLevel patterns relDir).1)
         ++ (sortedFiles entries).flatMap (fun f => (emitEntryFile f indentLevel patterns relDir).1),
       (sortedDirs entries).flatMap (fun d => (emitEntryDir d indentLevel patterns relDir).2)
         ++ (sortedFiles entries).flatMap (fun f => (emitEntryFile f indentLevel patterns relDir).2)) := by
  rw [collectEntries]
  simp only [List.attach_map_val, List.flatMap_map, Function.comp, List.flatMap_subtype,
    List.unattach_attach]

/-! ## The files the traversal encounters

`traversalFiles` records, in traversal order, the depth, root-relative
path and data of every file for which the files loop of
`collect_structure_and_contents` runs.  It mirrors the recursion of
`collectEntries` exactly and acts as the index set tying each file's
structure line to its content block. -/

/-- The file-loop record for entry `f`: its depth, its root-relative path
and its data (`none` for a non-file entry). -/
def travPartFile (indentLevel : Nat) (relDir : String) (f : FSEntry) :
    Option (Nat × String × FileData) :=
  match f with
  | FSEntry.file fd => some (indentLevel, joinRel relDir fd.name, fd)
  | _ => none

mutual

/-- The files the traversal of `entries` runs the content step for, in
traversal order. -/
def traversalFiles (entries : List FSEntry) (indentLevel : Nat) (patterns : List String)
    (relDir : String) : List (Nat × String × FileData) :=
  ((sortedDirs entries).attach.map
      (fun d => travPartDir d.val indentLevel patterns relDir)).flatten
    ++ (sortedFiles entries).filterMap (travPartFile indentLevel relDir)
termination_by sizeOf entries
decreasing_by
  exact sizeOf_lt_of_mem_sortedDirs d.property

/-- The files contributed by one directory entry: none when the directory
is matched by an ignore pattern, its recursive traversal otherwise. -/
def travPartDir (d : FSEntry) (indentLevel : Nat) (patterns : List String)
    (relDir : String) : List (Nat × String × FileData) :=
  match d with
  | FSEntry.dir name children =>
    let rel := joinRel relDir name
    if any_match rel patterns then []
    else traversalFiles children (indentLevel + 1) patterns rel
  | _ => []
termination_by sizeOf d
decreasing_by
  simp only [FSEntry.dir.sizeOf_spec]
  omega

end

theorem traversalFiles_decomp (entries : List FSEntry) (indentLevel : Nat)
    (patterns : List String) (relDir : String) :
    traversalFiles entries indentLevel patterns relDir =
      (sortedDirs entries).flatMap (fun d => travPartDir d indentLevel patterns relDir)
        ++ (sortedFiles entries).filterMap (travPartFile indentLevel relDir) := by
  rw [traversalFiles]
  rw [← List.flatMap_def]
  simp only [List.flatMap_subtype, List.unattach_attach]

/-- The content block the content step produces for one traversed file. -/
def blockOf (patterns : List String) (t : Nat × String × FileData) : List String :=
  collect_file_content t.2.2 t.2.1 (any_match t.2.1 patterns)

theorem flatMap_congr_mem {α β : Type} {l : List α} {f g : α → List β}
    (h : ∀ x ∈ l, f x = g x) : l.flatMap f = l.flatMap g := by
  induction l with
  | nil => rfl
  | cons a t ih =>
    simp only [List.flatMap_cons]
    rw [h a (List.mem_cons_self a t), ih (fun x hx => h x (List.mem_cons_of_mem a hx))]

theorem sizeOf_children_le {name : String} {children entries : List FSEntry} {n : Nat}
    (hmem : FSEntry.dir name children ∈ sortedDirs entries)
    (hsz : sizeOf entries ≤ n + 1) : sizeOf children ≤ n := by
  have h1 := sizeOf_lt_of_mem_sortedDirs hmem
  simp only [FSEntry.dir.sizeOf_spec] at h1
  omega

theorem emitFile_contents_side (fs : List FSEntry) (indentLevel : Nat)
    (patterns : List String) (relDir : String) :
    fs.flatMap (fun f => (emitEntryFile f indentLevel patterns relDir).2)
      = (fs.filterMap (travPartFile indentLevel relDir)).flatMap (blockOf patterns) := by
  induction fs with
  | nil => rfl
  | cons a t ih =>
    cases a <;> (rw [List.flatMap_cons, ih] ; rfl)

theorem contents_eq_aux (n : Nat) : ∀ entries : List FSEntry, sizeOf entries ≤ n →
    ∀ (indentLevel : Nat) (patterns : List String) (relDir : String),
    (collectEntries entries indentLevel patterns relDir).2
      = (traversalFiles entries indentLevel patterns relDir).flatMap (blockOf patterns) := by
  induction n with
  | zero =>
    intro entries h
    exfalso
    cases entries <;> simp_arith at h
  | succ n ih =>
    intro entries hsz indentLevel patterns relDir
    rw [collectEntries_decomp, traversalFiles_decomp]
    simp only [List.flatMap_append, List.flatMap_assoc]
    congr 1
    · refine flatMap_congr_mem (fun d hd => ?_)
      cases d with
      | dir name children =>
        rw [emitEntryDir, travPartDir]
        by_cases hm : any_match (joinRel relDir name) patterns
        · simp [hm]
        · simp only [hm, if_neg, Bool.false_eq_true, if_false]
          exact ih children (sizeOf_children_le hd hsz) (indentLevel + 1) patterns
            (joinRel relDir name)
      | file fd => simp [emitEntryDir, travPartDir]
      | other name => simp [emitEntryDir, travPartDir]
    · exact emitFile_contents_side _ _ _ _

theorem collectEntries_fst (entries : List FSEntry) (indentLevel : Nat)
    (patterns : List String) (relDir : String) :
    (collectEntries entries indentLevel patterns relDir).1
      = (sortedDirs entries).flatMap (fun d => (emitEntryDir d indentLevel patterns relDir).1)
        ++ (sortedFiles entries).flatMap (fun f => (emitEntryFile f indentLevel patterns relDir).1) := by
  rw [collectEntries_decomp]

theorem structLine_mem_aux (n : Nat) : ∀ entries : List FSEntry, sizeOf entries ≤ n →
    ∀ (indentLevel : Nat) (patterns : List String) (relDir : String)
      (t : Nat × String × FileData),
    t ∈ traversalFiles entries indentLevel patterns relDir →
    structLine t.1 t.2.2.name ∈ (collectEntries entries indentLevel patterns relDir).1 := by
  induction n with
  | zero =>
    intro entries h
    exfalso
    cases entries <;> simp_arith at h
  | succ n ih =>
    intro entries hsz indentLevel patterns relDir t ht
    rw [traversalFiles_decomp] at ht
    rw [collectEntries_fst]
    rcases List.mem_append.mp ht with hd | hf
    · rcases List.mem_flatMap.mp hd with ⟨d, hdmem, htd⟩
      refine List.mem_append.mpr (Or.inl (List.mem_flatMap.mpr ⟨d, hdmem, ?_⟩))
      cases d with
      | dir name children =>
        rw [travPartDir] at htd
        by_cases hm : any_match (joinRel relDir name) patterns
        · simp [hm] at htd
        · simp only [hm, Bool.false_eq_true, if_false] at htd
          have hmem := ih children (sizeOf_children_le hdmem hsz) (indentLevel + 1)
            patterns (joinRel relDir name) t htd
          rw [emitEntryDir]
          simp only [hm, Bool.false_eq_true, if_false]
          exact List.mem_cons_of_mem _ hmem
      | file fd => simp [travPartDir] at htd
      | other name => simp [travPartDir] at htd
    · rcases List.mem_filterMap.mp hf with ⟨f, hfmem, hft⟩
      refine List.mem_append.mpr (Or.inr (List.mem_flatMap.mpr ⟨f, hfmem, ?_⟩))
      cases f with
      | dir name children => simp [travPartFile] at hft
      | file fd =>
        simp only [travPartFile, Option.some.injEq] at hft
        subst hft
        simp [emitEntryFile]
      | other name => simp [travPartFile] at hft

theorem not_reserved_aux (n : Nat) : ∀ entries : List FSEntry, sizeOf entries ≤ n →
    ∀ (indentLevel : Nat) (patterns : List String) (relDir : String)
      (t : Nat × String × FileData),
    t ∈ traversalFiles entries indentLevel patterns relDir →
    reservedNames.contains t.2.2.name = false := by
  induction n with
  | zero =>
    intro entries h
    exfalso
    cases entries <;> simp_arith at h
  | succ n ih =>
    intro entries hsz indentLevel patterns relDir t ht
    rw [traversalFiles_decomp] at ht
    rcases List.mem_append.mp ht with hd | hf
    · rcases List.mem_flatMap.mp hd with ⟨d, hdmem, htd⟩
      cases d with
      | dir name children =>
        rw [travPartDir] at htd
        by_cases hm : any_match (joinRel relDir name) patterns
        · simp [hm] at htd
        · simp only [hm, Bool.false_eq_true, if_false] at htd
          exact ih children (sizeOf_children_le hdmem hsz) (indentLevel + 1)
            patterns (joinRel relDir name) t htd
      | file fd => simp [travPartDir] at htd
      | other name => simp [travPartDir] at htd
    · rcases List.mem_filterMap.mp hf with ⟨f, hfmem, hft⟩
      cases f with
      | dir name children => simp [travPartFile] at hft
      | file fd =>
        simp only [travPartFile, Option.some.injEq] at hft
        subst hft
        rw [sortedFiles, List.mem_insertionSort, List.mem_filter] at hfmem
        have h2 := hfmem.2
        simp only [FSEntry.isFile, FSEntry.name, Bool.and_eq_true, Bool.not_eq_true'] at h2
        exact h2.2
      | other name => simp [travPartFile] at hft

/-- The content list of the traversal is the concatenation, over the files
encountered in traversal order, of each file's content block. -/
theorem collectEntries_contents (entries : List FSEntry) (indentLevel : Nat)
    (patterns : List String) (relDir : String) :
    (collectEntries entries indentLevel patterns relDir).2
      = (traversalFiles entries indentLevel patterns relDir).flatMap (blockOf patterns) :=
  contents_eq_aux (sizeOf entries) entries le_rfl indentLevel patterns relDir

/-- Every traversed file's structure line is in the structure list. -/
theorem traversalFiles_structLine_mem {entries : List FSEntry} {indentLevel : Nat}
    {patterns : List String} {relDir : String} {t : Nat × String × FileData}
    (ht : t ∈ traversalFiles entries indentLevel patterns relDir) :
    structLine t.1 t.2.2.name ∈ (collectEntries entries indentLevel patterns relDir).1 :=
  structLine_mem_aux (sizeOf entries) entries le_rfl indentLevel patterns relDir t ht

/-- No traversed file bears one of the reserved names. -/
theorem traversalFiles_not_reserved {entries : List FSEntry} {indentLevel : Nat}
    {patterns : List String} {relDir : String} {t : Nat × String × FileData}
    (ht : t ∈ traversalFiles entries indentLevel patterns relDir) :
    reservedNames.contains t.2.2.name = false :=
  not_reserved_aux (sizeOf entries) entries le_rfl indentLevel patterns relDir t ht

/-! ## Output assembly (`write_structure`, lines 28–56) -/

/-- Function `load_ignore_patterns` (lines 17–26): the stripped, non-empty,
non-comment lines of the ignore file, `[]` when the file does not exist.
Python collects them into a `set`; `any_match` only tests membership, for
which the list of kept lines is an equivalent model. -/
def load_ignore_patterns (fileContent : Option String) : List String :=
  match fileContent with
  | none => []
  | some c => ((splitlines c).map String.trim).filter
      (fun line => line != "" && !(line.startsWith "#"))

/-- Function `read_optional_file` (lines 51–56): the stripped content when the file
exists, `''` otherwise. -/
def read_optional_file (fileContent : Option String) : String :=
  match fileContent with
  | none => ""
  | some c => c.trim

/-- The filesystem snapshot one run observes: the root directory's entry
tree and the contents of the three optional configuration files
(`none` models a file that does not exist). -/
structure FileSystem where
  rootEntries : List FSEntry
  ignoreFile : Option String
  headerFile : Option String
  footerFile : Option String

/-- Function `write_structure` (lines 28–49): the byte content of the output file
written for snapshot `fs` (each list element is written followed by one
newline; the truthiness tests on the header and footer are the
non-emptiness of the stripped text). -/
def write_structure (fs : FileSystem) : String :=
  let ignore_patterns := load_ignore_patterns fs.ignoreFile
  let collected := collectEntries fs.rootEntries 0 ignore_patterns ""
  let header_content := read_optional_file fs.headerFile
  let footer_content := read_optional_file fs.footerFile
  (if header_content ≠ "" then header_content ++ "\n\n---\n\n" else "")
    ++ "Project Repository Structure:\n\n"
    ++ String.join (collected.1.map (fun line => line ++ "\n"))
    ++ "\n---\n\n"
    ++ String.join (collected.2.map (fun line => line ++ "\n"))
    ++ (if footer_content ≠ "" then footer_content ++ "\n" else "")

theorem visibleEntries_eq (entries : List FSEntry) : visibleEntries entries = entries := by
  simp [visibleEntries, IGNORE_HIDDEN_FILES]

/-! ## Claims -/

/-- C2: a file whose `os.path.getsize` returns exactly `0` gets the fixed
"not yet implemented" placeholder as its content block body, whatever its
ignore status — the emptiness check precedes the ignore check. -/
theorem empty_file_placeholder_precedence (f : FileData) (is_ignored : Bool)
    (h : f.sizeResult = Except.ok 0) :
    include_file_contents f is_ignored = [EMPTY_FILE_PLACEHOLDER] := by
  simp [include_file_contents, h]

theorem empty_file_placeholder_precedence_witness :
    include_file_contents ⟨"b.txt", Except.ok 0, Except.ok ""⟩ true = [EMPTY_FILE_PLACEHOLDER] :=
  empty_file_placeholder_precedence ⟨"b.txt", Except.ok 0, Except.ok ""⟩ true rfl

/-- C3: a file of nonzero size whose relative path matches an ignore
pattern gets exactly the label line, the fixed omission placeholder and
the separator as its content block — its real content never appears, with
no size condition (so also under the size limit). -/
theorem ignored_nonempty_file_omitted (f : FileData) (relFilePath : String)
    (patterns : List String) (n : Nat)
    (hmatch : any_match relFilePath patterns = true)
    (hsize : f.sizeResult = Except.ok n) (hn : n ≠ 0) :
    collect_file_content f relFilePath (any_match relFilePath patterns)
      = [relFilePath.replace "/" osSep ++ ":\n", OMITTED_TEXT, "\n---\n"] := by
  rw [collect_file_content, hmatch]
  simp [include_file_contents, hsize, hn]

theorem ignored_nonempty_file_omitted_witness :
    collect_file_content ⟨"c.txt", Except.ok 6, Except.ok "secret"⟩ "c.txt"
        (any_match "c.txt" ["c.txt"])
      = ["c.txt".replace "/" osSep ++ ":\n", OMITTED_TEXT, "\n---\n"] :=
  ignored_nonempty_file_omitted ⟨"c.txt", Except.ok 6, Except.ok "secret"⟩ "c.txt"
    ["c.txt"] 6 (by decide) rfl (by decide)

/-- C7: a failing size query or a failing read produces a single
error-description line as the content block body (the exception is caught,
nothing propagates — the embedding is total), and the content list of the
whole traversal is the independent concatenation of the per-file blocks,
so one file's failure leaves every other file's block unchanged. -/
theorem read_failure_isolated (f : FileData) (is_ignored : Bool) :
    (∀ e, f.sizeResult = Except.error e →
      include_file_contents f is_ignored = ["[Error reading file: " ++ e ++ "]"])
    ∧ (∀ n e, f.sizeResult = Except.ok n → n ≠ 0 → is_ignored = false →
        ¬ n > MAX_FILE_SIZE → f.readResult = Except.error e →
        include_file_contents f is_ignored = ["[Error reading file: " ++ e ++ "]"])
    ∧ (∀ (entries : List FSEntry) (indentLevel : Nat) (patterns : List String)
        (relDir : String),
        (collectEntries entries indentLevel patterns relDir).2
          = (traversalFiles entries indentLevel patterns relDir).flatMap (blockOf patterns)) := by
  refine ⟨?_, ?_, fun entries indentLevel patterns relDir =>
    collectEntries_contents entries indentLevel patterns relDir⟩
  · intro e he
    simp [include_file_contents, he]
  · intro n e hn h0 hig hmax hr
    subst hig
    simp [include_file_contents, hn, h0, hmax, hr]

theorem read_failure_isolated_witness :
    include_file_contents ⟨"a", Except.error "boom", Except.ok ""⟩ true
        = ["[Error reading file: boom]"]
    ∧ include_file_contents ⟨"b", Except.ok 3, Except.error "bad utf8"⟩ false
        = ["[Error reading file: bad utf8]"] :=
  ⟨(read_failure_isolated ⟨"a", Except.error "boom", Except.ok ""⟩ true).1 "boom" rfl,
   (read_failure_isolated ⟨"b", Except.ok 3, Except.error "bad utf8"⟩ false).2.1 3 "bad utf8"
     rfl (by decide) rfl (by decide) rfl⟩

/-- C9: the output is a pure function of the observed snapshot (entry
tree, sizes, read results, ignore/header/footer file contents): the code
consults no clock, counter or randomness, so two runs over equal
snapshots produce byte-identical output files. -/
theorem output_deterministic (fs1 fs2 : FileSystem) (h : fs1 = fs2) :
    write_structure fs1 = write_structure fs2 := by
  rw [h]

theorem output_deterministic_witness :
    write_structure ⟨[], none, none, none⟩ = write_structure ⟨[], none, none, none⟩ :=
  output_deterministic ⟨[], none, none, none⟩ ⟨[], none, none, none⟩ rfl

/-- C5: at every directory level the structure list is the per-directory
emissions (each a directory entry with its fully expanded subtree) in
name-sorted order, followed by the per-file emissions in name-sorted
order — so every sibling directory's line precedes every sibling file's
line, and each group is alphabetical (case-sensitive `≤` on names). -/
theorem dirs_before_files_alphabetical (entries : List FSEntry) (indentLevel : Nat)
    (patterns : List String) (relDir : String) :
    (collectEntries entries indentLevel patterns relDir).1
      = (sortedDirs entries).flatMap (fun d => (emitEntryDir d indentLevel patterns relDir).1)
        ++ (sortedFiles entries).flatMap (fun f => (emitEntryFile f indentLevel patterns relDir).1)
    ∧ List.Sorted nameLE (sortedDirs entries)
    ∧ List.Sorted nameLE (sortedFiles entries) :=
  ⟨collectEntries_fst entries indentLevel patterns relDir,
   List.sorted_insertionSort nameLE _,
   List.sorted_insertionSort nameLE _⟩

/-- C4: the content list is exactly the concatenation, over the traversed
files in traversal order, of one content block each; every block is one
label line, a body, and one trailing separator; and every traversed
file's structure line occurs in the structure list. -/
theorem file_structure_content_correspondence (entries : List FSEntry) (indentLevel : Nat)
    (patterns : List String) (relDir : String) :
    (collectEntries entries indentLevel patterns relDir).2
      = (traversalFiles entries indentLevel patterns relDir).flatMap (blockOf patterns)
    ∧ (∀ t : Nat × String × FileData, blockOf patterns t
        = (t.2.1.replace "/" osSep ++ ":\n")
            :: include_file_contents t.2.2 (any_match t.2.1 patterns) ++ ["\n---\n"])
    ∧ (∀ t ∈ traversalFiles entries indentLevel patterns relDir,
        structLine t.1 t.2.2.name ∈ (collectEntries entries indentLevel patterns relDir).1) :=
  ⟨collectEntries_contents entries indentLevel patterns relDir,
   fun _ => rfl,
   fun _ ht => traversalFiles_structLine_mem ht⟩

theorem file_structure_content_correspondence_witness :
    structLine 0 "a.txt"
      ∈ (collectEntries [FSEntry.file ⟨"a.txt", Except.ok 2, Except.ok "hi"⟩] 0 [] "").1 :=
  (file_structure_content_correspondence
      [FSEntry.file ⟨"a.txt", Except.ok 2, Except.ok "hi"⟩] 0 [] "").2.2
    (0, "a.txt", ⟨"a.txt", Except.ok 2, Except.ok "hi"⟩)
    (by rw [traversalFiles_decomp]; exact List.mem_cons_self _ _)

/-- C10: an entry that is neither a directory nor a regular file is
silently dropped: removing it from its directory's listing changes
neither the structure/content lists nor the traversed-file list, and it
produces no placeholder or error anywhere. -/
theorem non_dir_non_file_dropped (name : String) (l1 l2 : List FSEntry) (indentLevel : Nat)
    (patterns : List String) (relDir : String) :
    collectEntries (l1 ++ FSEntry.other name :: l2) indentLevel patterns relDir
      = collectEntries (l1 ++ l2) indentLevel patterns relDir
    ∧ traversalFiles (l1 ++ FSEntry.other name :: l2) indentLevel patterns relDir
      = traversalFiles (l1 ++ l2) indentLevel patterns relDir := by
  have hdirs : sortedDirs (l1 ++ FSEntry.other name :: l2) = sortedDirs (l1 ++ l2) := by
    simp [sortedDirs, visibleEntries_eq, List.filter_append, List.filter_cons, FSEntry.isDir]
  have hfiles : sortedFiles (l1 ++ FSEntry.other name :: l2) = sortedFiles (l1 ++ l2) := by
    simp [sortedFiles, visibleEntries_eq, List.filter_append, List.filter_cons, FSEntry.isFile]
  exact ⟨by rw [collectEntries_decomp, collectEntries_decomp, hdirs, hfiles],
         by rw [traversalFiles_decomp, traversalFiles_decomp, hdirs, hfiles]⟩

/-- C8: a file bearing one of the five reserved names is excluded from the
files list at every level: removing it from any directory's listing
changes nothing, and no traversed file (hence no structure file line and
no content block) ever bears a reserved name. -/
theorem reserved_names_never_listed (fd : FileData) (l1 l2 : List FSEntry) (indentLevel : Nat)
    (patterns : List String) (relDir : String)
    (h : fd.name ∈ reservedNames) :
    collectEntries (l1 ++ FSEntry.file fd :: l2) indentLevel patterns relDir
      = collectEntries (l1 ++ l2) indentLevel patterns relDir
    ∧ traversalFiles (l1 ++ FSEntry.file fd :: l2) indentLevel patterns relDir
      = traversalFiles (l1 ++ l2) indentLevel patterns relDir
    ∧ (∀ t ∈ traversalFiles (l1 ++ FSEntry.file fd :: l2) indentLevel patterns relDir,
        t.2.2.name ∉ reservedNames) := by
  have hcontains : reservedNames.contains fd.name = true := by
    exact List.elem_eq_true_of_mem h
  have hdirs : sortedDirs (l1 ++ FSEntry.file fd :: l2) = sortedDirs (l1 ++ l2) := by
    simp [sortedDirs, visibleEntries_eq, List.filter_append, List.filter_cons, FSEntry.isDir]
  have hfiles : sortedFiles (l1 ++ FSEntry.file fd :: l2) = sortedFiles (l1 ++ l2) := by
    simp [sortedFiles, visibleEntries_eq, List.filter_append, List.filter_cons,
      FSEntry.isFile, FSEntry.name, hcontains, h]
  refine ⟨by rw [collectEntries_decomp, collectEntries_decomp, hdirs, hfiles],
          by rw [traversalFiles_decomp, traversalFiles_decomp, hdirs, hfiles],
          fun t ht => ?_⟩
  have hres := traversalFiles_not_reserved ht
  intro hmem
  simp at hres
  exact hres hmem

theorem reserved_names_never_listed_witness :
    collectEntries
        [FSEntry.file ⟨"a.txt", Except.ok 2, Except.ok "hi"⟩,
         FSEntry.file ⟨"project_structure.txt", Except.ok 9, Except.ok "old"⟩] 0 [] ""
      = collectEntries [FSEntry.file ⟨"a.txt", Except.ok 2, Except.ok "hi"⟩] 0 [] "" :=
  (reserved_names_never_listed ⟨"project_structure.txt", Except.ok 9, Except.ok "old"⟩
    [FSEntry.file ⟨"a.txt", Except.ok 2, Except.ok "hi"⟩] [] 0 [] "" (by decide)).1

theorem forall₂_self {α : Type} {R : α → α → Prop} (hR : ∀ a, R a a) :
    ∀ l : List α, List.Forall₂ R l l
  | [] => List.Forall₂.nil
  | a :: t => List.Forall₂.cons (hR a) (forall₂_self hR t)

theorem orderedInsert_forall₂ {R : FSEntry → FSEntry → Prop}
    (hname : ∀ a b, R a b → a.name = b.name) {a b : FSEntry} {l l' : List FSEntry}
    (hab : R a b) (hll : List.Forall₂ R l l') :
    List.Forall₂ R (List.orderedInsert nameLE a l) (List.orderedInsert nameLE b l') := by
  induction hll with
  | nil => exact List.Forall₂.cons hab List.Forall₂.nil
  | @cons x y t t' hxy htt ih =>
    simp only [List.orderedInsert]
    by_cases hle : nameLE a x
    · have hle' : nameLE b y := by
        unfold nameLE at hle ⊢
        rw [← hname a b hab, ← hname x y hxy]
        exact hle
      rw [if_pos hle, if_pos hle']
      exact List.Forall₂.cons hab (List.Forall₂.cons hxy htt)
    · have hle' : ¬ nameLE b y := by
        unfold nameLE at hle ⊢
        rw [← hname a b hab, ← hname x y hxy]
        exact hle
      rw [if_neg hle, if_neg hle']
      exact List.Forall₂.cons hxy ih

theorem insertionSort_forall₂ {R : FSEntry → FSEntry → Prop}
    (hname : ∀ a b, R a b → a.name = b.name) {l l' : List FSEntry}
    (h : List.Forall₂ R l l') :
    List.Forall₂ R (List.insertionSort nameLE l) (List.insertionSort nameLE l') := by
  induction h with
  | nil => exact List.Forall₂.nil
  | cons hxy htt ih => exact orderedInsert_forall₂ hname hxy ih

theorem flatMap_forall₂ {α β : Type} {R : α → α → Prop} {F G : α → List β}
    (hFG : ∀ a b, R a b → F a = G b) {l l' : List α}
    (h : List.Forall₂ R l l') : l.flatMap F = l'.flatMap G := by
  induction h with
  | nil => rfl
  | cons hxy htt ih =>
    simp only [List.flatMap_cons]
    rw [hFG _ _ hxy, ih]

/-- C1: a directory whose root-relative path matches an ignore pattern
contributes exactly its entry line followed by one omission-marker line
one level deeper, an empty content list, and no traversed files; and the
whole traversal output is unchanged when its subtree is replaced by the
empty one — no descendant of the directory appears anywhere in the
structure or content lists. -/
theorem ignored_dir_listed_not_recursed (name : String) (children : List FSEntry)
    (l1 l2 : List FSEntry) (indentLevel : Nat) (patterns : List String) (relDir : String)
    (h : any_match (joinRel relDir name) patterns = true) :
    emitEntryDir (FSEntry.dir name children) indentLevel patterns relDir
      = ([structLine indentLevel name, structLine (indentLevel + 1) OMITTED_TEXT], [])
    ∧ travPartDir (FSEntry.dir name children) indentLevel patterns relDir = []
    ∧ collectEntries (l1 ++ FSEntry.dir name children :: l2) indentLevel patterns relDir
      = collectEntries (l1 ++ FSEntry.dir name [] :: l2) indentLevel patterns relDir := by
  have hemit : ∀ cs : List FSEntry,
      emitEntryDir (FSEntry.dir name cs) indentLevel patterns relDir
        = ([structLine indentLevel name, structLine (indentLevel + 1) OMITTED_TEXT],
           ([] : List String)) := by
    intro cs
    rw [emitEntryDir]
    simp [h]
  have htrav : ∀ cs : List FSEntry,
      travPartDir (FSEntry.dir name cs) indentLevel patterns relDir = [] := by
    intro cs
    rw [travPartDir]
    simp [h]
  refine ⟨hemit children, htrav children, ?_⟩
  have hfilter : ∀ cs : List FSEntry,
      (visibleEntries (l1 ++ FSEntry.dir name cs :: l2)).filter FSEntry.isDir
        = l1.filter FSEntry.isDir ++ FSEntry.dir name cs :: l2.filter FSEntry.isDir := by
    intro cs
    simp [visibleEntries_eq, List.filter_append, List.filter_cons, FSEntry.isDir]
  have hR : List.Forall₂
      (fun a b : FSEntry => a.name = b.name
        ∧ emitEntryDir a indentLevel patterns relDir = emitEntryDir b indentLevel patterns relDir)
      (sortedDirs (l1 ++ FSEntry.dir name children :: l2))
      (sortedDirs (l1 ++ FSEntry.dir name [] :: l2)) := by
    rw [sortedDirs, sortedDirs, hfilter children, hfilter []]
    refine insertionSort_forall₂ (fun a b hab => hab.1) ?_
    refine List.rel_append (forall₂_self (fun a => ⟨rfl, rfl⟩) _) ?_
    exact List.Forall₂.cons ⟨rfl, (hemit children).trans (hemit []).symm⟩
      (forall₂_self (fun a => ⟨rfl, rfl⟩) _)
  have hfiles : sortedFiles (l1 ++ FSEntry.dir name children :: l2)
      = sortedFiles (l1 ++ FSEntry.dir name [] :: l2) := by
    simp [sortedFiles, visibleEntries_eq, List.filter_append, List.filter_cons, FSEntry.isFile]
  have hstruct := flatMap_forall₂
    (fun a b hab => congrArg Prod.fst hab.2) hR
  have hcont := flatMap_forall₂
    (fun a b hab => congrArg Prod.snd hab.2) hR
  rw [collectEntries_decomp, collectEntries_decomp, hfiles, hstruct, hcont]

theorem ignored_dir_listed_not_recursed_witness :
    emitEntryDir (FSEntry.dir "sub" [FSEntry.file ⟨"d.txt", Except.ok 5, Except.ok "world"⟩])
        0 ["sub"] ""
      = ([structLine 0 "sub", structLine 1 OMITTED_TEXT], [])
    ∧ travPartDir (FSEntry.dir "sub" [FSEntry.file ⟨"d.txt", Except.ok 5, Except.ok "world"⟩])
        0 ["sub"] "" = []
    ∧ collectEntries
        ([] ++ FSEntry.dir "sub" [FSEntry.file ⟨"d.txt", Except.ok 5, Except.ok "world"⟩] :: [])
        0 ["sub"] ""
      = collectEntries ([] ++ FSEntry.dir "sub" [] :: []) 0 ["sub"] "" :=
  ignored_dir_listed_not_recursed "sub" [FSEntry.file ⟨"d.txt", Except.ok 5, Except.ok "world"⟩]
    [] [] 0 ["sub"] "" (by decide)

theorem toLower_eq_slash {b : Char} (h : Char.toLower b = '/') : b = '/' := by
  unfold Char.toLower at h
  simp only [] at h
  rw [show (let n := b.toNat;
      if n ≥ 65 ∧ n ≤ 90 then Char.ofNat (n + 32) else b)
      = if b.toNat ≥ 65 ∧ b.toNat ≤ 90 then Char.ofNat (b.toNat + 32) else b from rfl] at h
  split at h
  · next hin =>
    exfalso
    obtain ⟨h65, h90⟩ := hin
    have h97 : 97 ≤ b.toNat + 32 := by omega
    have h122 : b.toNat + 32 ≤ 122 := by omega
    generalize hm : b.toNat + 32 = m at h h97 h122
    interval_cases m <;> exact absurd h (by decide)
  · exact h

theorem toLower_slashRep_congr {a b : Char} (h : Char.toLower a = Char.toLower b) :
    Char.toLower (if a = '/' then '\\' else a)
      = Char.toLower (if b = '/' then '\\' else b) := by
  have hsl : Char.toLower '/' = '/' := rfl
  by_cases ha : a = '/'
  · by_cases hb : b = '/'
    · rw [ha, hb]
    · exfalso
      subst ha
      exact hb (toLower_eq_slash (h.symm.trans hsl))
  · by_cases hb : b = '/'
    · exfalso
      subst hb
      exact ha (toLower_eq_slash (h.trans hsl))
    · rw [if_neg ha, if_neg hb]
      exact h

theorem map_toLower_slashRep_congr : ∀ u v : List Char,
    u.map Char.toLower = v.map Char.toLower →
    (u.map (fun c => if c = '/' then '\\' else c)).map Char.toLower
      = (v.map (fun c => if c = '/' then '\\' else c)).map Char.toLower := by
  intro u
  induction u with
  | nil =>
    intro v h
    cases v with
    | nil => rfl
    | cons b v => simp at h
  | cons a u ih =>
    intro v h
    cases v with
    | nil => simp at h
    | cons b v =>
      simp only [List.map_cons, List.cons.injEq] at h ⊢
      exact ⟨toLower_slashRep_congr h.1, ih v h.2⟩

theorem normcase_congr_of_toLower_eq {s t : String}
    (h : s.data.map Char.toLower = t.data.map Char.toLower) : normcase s = normcase t := by
  unfold normcase
  exact congrArg String.mk (map_toLower_slashRep_congr s.data t.data h)

/-- C6: `any_match` holds exactly when some pattern equals the path after
`os.path.normcase` normalisation of both — pure exact matching on the
normalised strings, with no wildcard or substring interpretation — and
any pattern differing from the path only in letter case (equal images
under `Char.toLower`) matches it. -/
theorem ignore_matching_normcase_exact (path : String) (patterns : List String) :
    (any_match path patterns = true
      ↔ ∃ pattern ∈ patterns, normcase pattern = normcase path)
    ∧ (∀ s t : String, s.data.map Char.toLower = t.data.map Char.toLower →
        any_match s [t] = true) := by
  constructor
  · simp [any_match, List.any_eq_true]
  · intro s t hst
    have hn : normcase t = normcase s := (normcase_congr_of_toLower_eq hst).symm
    simp [any_match, hn]

theorem ignore_matching_normcase_exact_witness :
    any_match "SRC" ["src"] = true :=
  (ignore_matching_normcase_exact "SRC" ["src"]).2 "SRC" "src" (by decide)

end ProjectStructure
